import Mathlib

/-!
Shallow embedding of the conversation analytics engine of
`imessage_stats.py` (the iMessage statistics tool), together with proofs
of the specification's claims about it.

Modelling conventions:
* Python integers become `Int` (counts become `Nat`), nullable values
  become `Option`, and the exact values of Python's float arithmetic on
  timestamp deltas and summaries are modelled by exact rational
  arithmetic (`ℚ`); `round` is Python 3's round-half-to-even.
* The imperative per-conversation loop of `build_report` is rendered as
  a fold over the conversation's messages; the accumulation of global
  totals across conversations becomes sums/concatenations over the
  first-encounter-ordered list of conversation keys, which is exactly
  what the insertion-ordered Python dict iteration produces.
* `list.sort(key=..., reverse=True)` is a stable sort; it is rendered by
  `List.mergeSort` (stable by construction) with the reversed comparison.
-/

namespace IMessageStats

/-- Input message record, from the dataclass `Message` in `imessage_stats.py`. -/
structure Message where
  message_id : Int
  chat_id : Int
  chat_identifier : String
  display_name : Option String
  handle : Option String
  date_raw : Option Int
  date_read_raw : Option Int
  is_from_me : Int
deriving Repr, DecidableEq

/-- `detect_date_scale` from `imessage_stats.py`: magnitude heuristic for the
timestamp unit.  Python's `if not max_date_value` is true exactly for `None`
and `0`; the float literals `1e17`, `1e14`, `1e11` are exactly the
corresponding powers of ten. -/
def detect_date_scale (max_date_value : Option Int) : Int × String :=
  match max_date_value with
  | none => (1, "seconds")
  | some v =>
    if v = 0 then (1, "seconds")
    else if v > 100000000000000000 then (1000000000, "nanoseconds")
    else if v > 100000000000000 then (1000000, "microseconds")
    else if v > 100000000000 then (1000, "milliseconds")
    else (1, "seconds")

/-- State of the backward scan of `next_opposite_times`: the two output lists
built so far and the two rolling trackers (`next_from_me_raw`,
`next_from_them_raw`). -/
structure ScanState where
  times : List (Option Int)
  types : List (Option Int)
  next_from_me : Option Int
  next_from_them : Option Int
deriving Repr, DecidableEq

/-- The backward loop of `next_opposite_times`: iterate from the last message
to the first, reading the opposite-direction tracker into the output and then
updating this message's own tracker when it has a non-null timestamp.
Rendered as structural recursion: the recursive call on `rest` plays the role
of the loop iterations over the later indices. -/
def nextOppositeScan : List Message → ScanState
  | [] => ⟨[], [], none, none⟩
  | msg :: rest =>
    let s := nextOppositeScan rest
    if msg.is_from_me = 1 then
      { times := s.next_from_them :: s.times
        types := (if s.next_from_them.isSome then some 0 else none) :: s.types
        next_from_me := match msg.date_raw with | some d => some d | none => s.next_from_me
        next_from_them := s.next_from_them }
    else
      { times := s.next_from_me :: s.times
        types := (if s.next_from_me.isSome then some 1 else none) :: s.types
        next_from_me := s.next_from_me
        next_from_them := match msg.date_raw with | some d => some d | none => s.next_from_them }

/-- `next_opposite_times` from `imessage_stats.py`.  The `divisor` argument is
present in the source but unused by the function. -/
def next_opposite_times (messages : List Message) (divisor : Int) :
    List (Option Int) × List (Option Int) :=
  ((nextOppositeScan messages).times, (nextOppositeScan messages).types)

/-- Python 3's `round` to the nearest integer, halves to the even integer. -/
def roundHalfEven (q : ℚ) : ℤ :=
  let f := ⌊q⌋
  let r := q - (f : ℚ)
  if r < 1/2 then f
  else if (1 : ℚ)/2 < r then f + 1
  else if Even f then f else f + 1

/-- Python's `round(x, 2)`: round to two decimal places, halves to even. -/
def round2 (q : ℚ) : ℚ := ((roundHalfEven (q * 100) : ℚ)) / 100

/-- Ascending sort, as `sorted(...)` produces (stable, but on `ℚ` the order
relation is antisymmetric so stability is irrelevant). -/
def sortAsc (l : List ℚ) : List ℚ := l.mergeSort (fun a b => decide (a ≤ b))

/-- `statistics.mean`. -/
def listMean (l : List ℚ) : ℚ := l.sum / (l.length : ℚ)

/-- `statistics.median`: middle element of the ascending sort for odd length,
average of the two middle elements for even length. -/
def listMedian (l : List ℚ) : ℚ :=
  let s := sortAsc l
  let n := s.length
  if n % 2 = 1 then s.getD (n / 2) 0
  else (s.getD (n / 2 - 1) 0 + s.getD (n / 2) 0) / 2

/-- The p90 index computed by `summarize_response_times`:
`max(0, int(round(0.9 * (n - 1))))`. -/
def p90Index (n : Nat) : Nat :=
  (max 0 (roundHalfEven ((9 * ((n : ℚ) - 1)) / 10))).toNat

/-- Summary record returned by `summarize_response_times`. -/
structure RTSummary where
  count : Nat
  avg_minutes : Option ℚ
  median_minutes : Option ℚ
  p90_minutes : Option ℚ
deriving Repr, DecidableEq

/-- `summarize_response_times` from `imessage_stats.py`. -/
def summarize_response_times (durations_minutes : List ℚ) : RTSummary :=
  if durations_minutes = [] then ⟨0, none, none, none⟩
  else
    let sorted_vals := sortAsc durations_minutes
    ⟨sorted_vals.length,
     some (round2 (listMean sorted_vals)),
     some (round2 (listMedian sorted_vals)),
     some (round2 (sorted_vals.getD (p90Index sorted_vals.length) 0))⟩

/-- The normalization `msg.date_read_raw if msg.date_read_raw not in (None, 0)
else None` inside `build_report`. -/
def normalizeRead (r : Option Int) : Option Int :=
  match r with
  | none => none
  | some v => if v = 0 then none else some v

/-- `(next_raw - base_raw) / divisor` in seconds, as exact rational
arithmetic. -/
def deltaSeconds (next_raw base_raw : Int) (divisor : Int) : ℚ :=
  ((next_raw - base_raw : Int) : ℚ) / (divisor : ℚ)

/-- The `replied_in_time` flag computed for one message inside
`build_report`: a next-opposite reply exists and its delta from the read
timestamp lies in `[0, threshold_seconds]`. -/
def repliedInTime (base_raw : Int) (next_raw : Option Int) (divisor : Int)
    (threshold_seconds : ℚ) : Bool :=
  match next_raw with
  | some nr =>
      decide (0 ≤ deltaSeconds nr base_raw divisor) &&
      decide (deltaSeconds nr base_raw divisor ≤ threshold_seconds)
  | none => false

/-- The per-message left-on-read test of `build_report`: the message must have
a non-null, non-zero read timestamp and a non-null send timestamp, and must
not have been replied to in time. -/
def leftOnRead (m : Message) (next_raw : Option Int) (divisor : Int)
    (threshold_seconds : ℚ) : Bool :=
  match normalizeRead m.date_read_raw, m.date_raw with
  | some base, some _ => ! repliedInTime base next_raw divisor threshold_seconds
  | _, _ => false

/-- The per-message response-time sample of `build_report`: when both the
next-opposite timestamp and the message's own send timestamp are present and
the delta is non-negative, the delta in minutes; otherwise nothing. -/
def replySample (m : Message) (next_raw : Option Int) (divisor : Int) : Option ℚ :=
  match next_raw, m.date_raw with
  | some nr, some dr =>
      if 0 ≤ deltaSeconds nr dr divisor then some (deltaSeconds nr dr divisor / 60)
      else none
  | _, _ => none

/-- Each message of a conversation paired with its next-opposite raw
timestamp, as the loop body of `build_report` reads `next_times_raw[idx]`. -/
def pairedWithNext (msgs : List Message) (divisor : Int) : List (Message × Option Int) :=
  msgs.zip (next_opposite_times msgs divisor).1

/-- The `them_reply` latency samples accumulated for one conversation
(messages sent by me that got an opposite reply). -/
def chatThemReply (msgs : List Message) (divisor : Int) : List ℚ :=
  (pairedWithNext msgs divisor).filterMap
    (fun p => if p.1.is_from_me = 1 then replySample p.1 p.2 divisor else none)

/-- The `you_reply` latency samples accumulated for one conversation
(messages from the other party that I replied to). -/
def chatYouReply (msgs : List Message) (divisor : Int) : List ℚ :=
  (pairedWithNext msgs divisor).filterMap
    (fun p => if p.1.is_from_me = 1 then none else replySample p.1 p.2 divisor)

/-- The `them_left` counter for one conversation: messages from me that were
read but not answered in time ("they left you on read"). -/
def chatThemLeft (msgs : List Message) (divisor : Int) (threshold_seconds : ℚ) : Nat :=
  ((pairedWithNext msgs divisor).filter
    (fun p => p.1.is_from_me == 1 && leftOnRead p.1 p.2 divisor threshold_seconds)).length

/-- The `you_left` counter for one conversation: messages from the other party
that I read but did not answer in time ("you left them on read"). -/
def chatYouLeft (msgs : List Message) (divisor : Int) (threshold_seconds : ℚ) : Nat :=
  ((pairedWithNext msgs divisor).filter
    (fun p => !(p.1.is_from_me == 1) && leftOnRead p.1 p.2 divisor threshold_seconds)).length

/-- Messages counted as sent in one conversation (`is_from_me == 1`). -/
def chatSent (msgs : List Message) : Nat :=
  (msgs.filter (fun m => m.is_from_me == 1)).length

/-- Messages counted as received in one conversation. -/
def chatReceived (msgs : List Message) : Nat :=
  (msgs.filter (fun m => !(m.is_from_me == 1))).length

/-- Conversation keys in first-encounter order, without duplicates: the
iteration order of the insertion-ordered dict `messages_by_chat`. -/
def chatKeys : List Message → List Int
  | [] => []
  | m :: rest => m.chat_id :: (chatKeys rest).filter (fun c => c != m.chat_id)

/-- The message list grouped under one conversation key, in original order. -/
def chatGroup (messages : List Message) (cid : Int) : List Message :=
  messages.filter (fun m => m.chat_id == cid)

/-- The display-label choice of `build_report`: the stored display name when
it is truthy (non-null and non-empty), else the chat identifier. -/
def labelOf (display_name : Option String) (chat_identifier : String) : String :=
  match display_name with
  | some s => if s = "" then chat_identifier else s
  | none => chat_identifier

/-- `sent`/`received`/`total` triple of the report. -/
structure Totals where
  sent : Nat
  received : Nat
  total : Nat
deriving Repr, DecidableEq

/-- The two left-on-read counters of the report. -/
structure LORCounts where
  you_left_them : Nat
  they_left_you : Nat
deriving Repr, DecidableEq

/-- The two response-time summaries of the report. -/
structure ResponseTimes where
  you_reply : RTSummary
  they_reply : RTSummary
deriving Repr, DecidableEq

/-- One per-conversation entry of the report's `chats` list. -/
structure ChatEntry where
  chat_id : Int
  chat_identifier : String
  display_name : Option String
  label : String
  totals : Totals
  left_on_read : LORCounts
  response_times : ResponseTimes
deriving Repr, DecidableEq

/-- The `summary` part of the report. -/
structure Summary where
  totals : Totals
  left_on_read : LORCounts
  response_times : ResponseTimes
deriving Repr, DecidableEq

/-- The report returned by `build_report` (the echoed run parameters carry no
analytics content and are omitted). -/
structure Report where
  summary : Summary
  chats : List ChatEntry
deriving Repr, DecidableEq

/-- The per-conversation entry built by the loop body of `build_report`. -/
def chatEntry (cid : Int) (msgs : List Message) (divisor : Int)
    (threshold_seconds : ℚ) : ChatEntry :=
  let display_name : Option String :=
    match msgs with | [] => none | m :: _ => m.display_name
  let ident : String :=
    match msgs with | [] => toString cid | m :: _ => m.chat_identifier
  let sent := chatSent msgs
  let received := chatReceived msgs
  { chat_id := cid
    chat_identifier := ident
    display_name := display_name
    label := labelOf display_name ident
    totals := ⟨sent, received, sent + received⟩
    left_on_read := ⟨chatYouLeft msgs divisor threshold_seconds,
                     chatThemLeft msgs divisor threshold_seconds⟩
    response_times := ⟨summarize_response_times (chatYouReply msgs divisor),
                       summarize_response_times (chatThemReply msgs divisor)⟩ }

/-- The comparison used by `chat_list.sort(key=lambda c: c["totals"]["total"],
reverse=True)`: `a` may come before `b` when `b`'s total is at most `a`'s. -/
def chatLE (a b : ChatEntry) : Bool := decide (b.totals.total ≤ a.totals.total)

/-- `build_report` from `imessage_stats.py`.  Grouping by chat is rendered by
`chatKeys`/`chatGroup`; per-chat accumulators become per-chat functions; the
cross-chat accumulation (`+=` and `.extend`) becomes sums and concatenation
over the first-encounter key order; the final stable descending sort and
truncation are `mergeSort` and `take`. -/
def build_report (messages : List Message) (divisor : Int) (threshold_hours : ℚ)
    (top : Nat) : Report :=
  let threshold_seconds := threshold_hours * 3600
  let groups := (chatKeys messages).map (fun cid => (cid, chatGroup messages cid))
  let totals_sent := (groups.map (fun g => chatSent g.2)).sum
  let totals_received := (groups.map (fun g => chatReceived g.2)).sum
  let left_you := (groups.map (fun g => chatYouLeft g.2 divisor threshold_seconds)).sum
  let left_them := (groups.map (fun g => chatThemLeft g.2 divisor threshold_seconds)).sum
  let you_reply_minutes := (groups.map (fun g => chatYouReply g.2 divisor)).flatten
  let them_reply_minutes := (groups.map (fun g => chatThemReply g.2 divisor)).flatten
  let chat_list := groups.map (fun g => chatEntry g.1 g.2 divisor threshold_seconds)
  { summary :=
      { totals := ⟨totals_sent, totals_received, totals_sent + totals_received⟩
        left_on_read := ⟨left_you, left_them⟩
        response_times := ⟨summarize_response_times you_reply_minutes,
                           summarize_response_times them_reply_minutes⟩ }
    chats := (chat_list.mergeSort chatLE).take top }

/-! ### Characterization of the backward reply scan -/

/-- Default message used with `List.getD` in index-based statements. -/
def defaultMsg : Message := ⟨0, 0, "", none, none, none, none, 0⟩

/-- Direction of a message as the code tests it: `is_from_me == 1`. -/
def dirOf (m : Message) : Bool := m.is_from_me == 1

/-- First message of direction `d` in `l` carrying a non-null raw timestamp,
if any: the value the backward scan's tracker for direction `d` holds after
having processed all of `l`. -/
def firstDirDate (d : Bool) : List Message → Option Int
  | [] => none
  | m :: rest =>
    if dirOf m = d then
      match m.date_raw with
      | some t => some t
      | none => firstDirDate d rest
    else firstDirDate d rest

theorem scan_next_from_me (l : List Message) :
    (nextOppositeScan l).next_from_me = firstDirDate true l := by
  induction l with
  | nil => rfl
  | cons m rest ih =>
    by_cases h : m.is_from_me = 1
    · cases hd : m.date_raw <;> simp [nextOppositeScan, firstDirDate, dirOf, h, hd, ih]
    · simp [nextOppositeScan, firstDirDate, dirOf, h, ih]

theorem scan_next_from_them (l : List Message) :
    (nextOppositeScan l).next_from_them = firstDirDate false l := by
  induction l with
  | nil => rfl
  | cons m rest ih =>
    by_cases h : m.is_from_me = 1
    · simp [nextOppositeScan, firstDirDate, dirOf, h, ih]
    · cases hd : m.date_raw <;> simp [nextOppositeScan, firstDirDate, dirOf, h, hd, ih]

theorem scan_times_length (l : List Message) :
    (nextOppositeScan l).times.length = l.length := by
  induction l with
  | nil => rfl
  | cons m rest ih => by_cases h : m.is_from_me = 1 <;> simp [nextOppositeScan, h, ih]

theorem scan_types_length (l : List Message) :
    (nextOppositeScan l).types.length = l.length := by
  induction l with
  | nil => rfl
  | cons m rest ih => by_cases h : m.is_from_me = 1 <;> simp [nextOppositeScan, h, ih]

/-- The scan's output at index `i` is the tracked first opposite-direction
non-null timestamp of the messages after index `i`. -/
theorem scan_times_getD (l : List Message) (i : Nat) (hi : i < l.length) :
    (nextOppositeScan l).times.getD i none =
      firstDirDate (!dirOf (l.getD i defaultMsg)) (l.drop (i + 1)) := by
  induction l generalizing i with
  | nil => simp at hi
  | cons m rest ih =>
    cases i with
    | zero =>
      by_cases h : m.is_from_me = 1
      · have hb : (m.is_from_me == 1) = true := beq_iff_eq.mpr h
        simp [nextOppositeScan, dirOf, h, hb, scan_next_from_them]
      · have hb : (m.is_from_me == 1) = false := beq_eq_false_iff_ne.mpr h
        simp [nextOppositeScan, dirOf, h, hb, scan_next_from_me]
    | succ i =>
      have hi' : i < rest.length := by simpa using hi
      have ihr := ih i hi'
      by_cases h : m.is_from_me = 1 <;> simpa [nextOppositeScan, h] using ihr

/-- The scan's direction output at index `i`: present exactly when the
timestamp output is, and then it names the direction opposite to message
`i`'s (`0` = from them, `1` = from me). -/
theorem scan_types_getD (l : List Message) (i : Nat) (hi : i < l.length) :
    (nextOppositeScan l).types.getD i none =
      if ((nextOppositeScan l).times.getD i none).isSome
      then some (if dirOf (l.getD i defaultMsg) then 0 else 1) else none := by
  induction l generalizing i with
  | nil => simp at hi
  | cons m rest ih =>
    cases i with
    | zero =>
      by_cases h : m.is_from_me = 1 <;> simp [nextOppositeScan, dirOf, h, beq_iff_eq]
    | succ i =>
      have hi' : i < rest.length := by simpa using hi
      have ihr := ih i hi'
      by_cases h : m.is_from_me = 1 <;> simpa [nextOppositeScan, h] using ihr

theorem firstDirDate_eq_none_iff (d : Bool) (l : List Message) :
    firstDirDate d l = none ↔ ∀ m ∈ l, dirOf m = d → m.date_raw = none := by
  induction l with
  | nil => simp [firstDirDate]
  | cons m rest ih =>
    by_cases h : dirOf m = d
    · cases hd : m.date_raw <;> simp [firstDirDate, h, hd, ih]
    · simp [firstDirDate, h, ih]

theorem firstDirDate_eq_some (d : Bool) (l : List Message) (t : Int)
    (h : firstDirDate d l = some t) :
    ∃ j, j < l.length ∧ dirOf (l.getD j defaultMsg) = d ∧
      (l.getD j defaultMsg).date_raw = some t := by
  induction l with
  | nil => simp [firstDirDate] at h
  | cons m rest ih =>
    by_cases hdir : dirOf m = d
    · cases hd : m.date_raw with
      | some v =>
        simp [firstDirDate, hdir, hd] at h
        exact ⟨0, by simp, by simpa using hdir, by simp [hd, h]⟩
      | none =>
        simp only [firstDirDate, if_pos hdir, hd] at h
        obtain ⟨j, hj, h1, h2⟩ := ih h
        exact ⟨j + 1, by simpa using hj, by simpa using h1, by simpa using h2⟩
    · simp only [firstDirDate, if_neg hdir] at h
      obtain ⟨j, hj, h1, h2⟩ := ih h
      exact ⟨j + 1, by simpa using hj, by simpa using h1, by simpa using h2⟩

/-- Order assumption between two messages: raw send timestamps, where both
are present, are non-decreasing. -/
def dateLE (m m' : Message) : Prop :=
  ∀ a b, m.date_raw = some a → m'.date_raw = some b → a ≤ b

/-- Executable form of `dateLE`. -/
def dateLEb (m m' : Message) : Bool :=
  match m.date_raw, m'.date_raw with
  | some a, some b => decide (a ≤ b)
  | _, _ => true

theorem dateLE_iff (m m' : Message) : dateLE m m' ↔ dateLEb m m' = true := by
  cases hm : m.date_raw with
  | none => simp [dateLE, dateLEb, hm]
  | some a =>
    cases hm' : m'.date_raw with
    | none => simp [dateLE, dateLEb, hm, hm']
    | some b => simp [dateLE, dateLEb, hm, hm']

instance instDecidableDateLE (m m' : Message) : Decidable (dateLE m m') :=
  decidable_of_iff _ (dateLE_iff m m').symm

/-- On a list whose present timestamps are sorted, the tracked first
direction-`d` timestamp is a lower bound for every present direction-`d`
timestamp in the list. -/
theorem firstDirDate_min (d : Bool) :
    ∀ l : List Message, l.Pairwise dateLE → ∀ t, firstDirDate d l = some t →
      ∀ m ∈ l, dirOf m = d → ∀ u, m.date_raw = some u → t ≤ u := by
  intro l
  induction l with
  | nil => intro _ t h; simp [firstDirDate] at h
  | cons m rest ih =>
    intro hs t h m' hm' hdir' u hu
    rw [List.pairwise_cons] at hs
    by_cases hdir : dirOf m = d
    · cases hd : m.date_raw with
      | some v =>
        have ht : v = t := by simpa [firstDirDate, hdir, hd] using h
        rcases List.mem_cons.mp hm' with rfl | hmem
        · rw [hd] at hu
          injection hu with hvu
          omega
        · have := hs.1 m' hmem v u hd hu
          omega
      | none =>
        simp only [firstDirDate, if_pos hdir, hd] at h
        rcases List.mem_cons.mp hm' with rfl | hmem
        · rw [hd] at hu; cases hu
        · exact ih hs.2 t h m' hmem hdir' u hu
    · simp only [firstDirDate, if_neg hdir] at h
      rcases List.mem_cons.mp hm' with rfl | hmem
      · exact absurd hdir' hdir
      · exact ih hs.2 t h m' hmem hdir' u hu

theorem getD_drop (l : List Message) (n j : Nat) (d : Message) :
    (l.drop n).getD j d = l.getD (n + j) d := by
  induction l generalizing n with
  | nil => simp
  | cons a rest ih =>
    cases n with
    | zero => simp
    | succ n =>
      have := ih n
      simpa [Nat.succ_add] using this

/-- A predicate holds on all elements of `l.drop (i+1)` exactly when it holds
at all indices strictly after `i`. -/
theorem forall_mem_drop_iff (l : List Message) (i : Nat) (P : Message → Prop) :
    (∀ m ∈ l.drop (i + 1), P m) ↔
      ∀ j, i < j → j < l.length → P (l.getD j defaultMsg) := by
  constructor
  · intro h j hij hj
    have hj' : j - (i + 1) < (l.drop (i + 1)).length := by
      rw [List.length_drop]; omega
    have hmem : (l.drop (i + 1)).getD (j - (i + 1)) defaultMsg ∈ l.drop (i + 1) := by
      rw [List.getD_eq_getElem _ _ hj']
      exact List.getElem_mem hj'
    have := h _ hmem
    rwa [getD_drop, (by omega : i + 1 + (j - (i + 1)) = j)] at this
  · intro h m hm
    obtain ⟨k, hk, hke⟩ := List.mem_iff_getElem.mp hm
    have hkd : m = (l.drop (i + 1)).getD k defaultMsg := by
      rw [List.getD_eq_getElem _ _ hk, hke]
    rw [hkd, getD_drop]
    refine h (i + 1 + k) (by omega) ?_
    have := List.length_drop (i + 1) l
    omega

/-! ### Example conversations used by witnesses and counterexamples -/

/-- Example conversation: a from-me message at time 0 followed by a from-them
message at time 10. -/
def exMeThem : List Message :=
  [⟨1, 1, "c", none, none, some 0, none, 1⟩,
   ⟨2, 1, "c", none, none, some 10, none, 0⟩]

/-- Example conversation refuting C1 as stated: a from-me message followed by
a from-them message carrying a null raw timestamp. -/
def exC1 : List Message :=
  [⟨1, 1, "c", none, none, some 0, none, 1⟩,
   ⟨2, 1, "c", none, none, none, none, 0⟩]

/-! ### Claims C1 and C3 -/

/-- C1 (amended): for every conversation message sequence and message index
`i`, the next-opposite timestamp produced by the reply scan
(`next_opposite_times`) is null if and only if no message of the opposite
direction with a non-null raw send timestamp occurs at a later index in that
conversation's sequence. -/
theorem claim_C1 (msgs : List Message) (divisor : Int) (i : Nat)
    (hi : i < msgs.length) :
    (next_opposite_times msgs divisor).1.getD i none = none ↔
      ∀ j, i < j → j < msgs.length →
        dirOf (msgs.getD j defaultMsg) = !dirOf (msgs.getD i defaultMsg) →
        (msgs.getD j defaultMsg).date_raw = none := by
  have htimes : (next_opposite_times msgs divisor).1 = (nextOppositeScan msgs).times := rfl
  rw [htimes, scan_times_getD msgs i hi, firstDirDate_eq_none_iff]
  exact forall_mem_drop_iff msgs i _

/-- Witness for `claim_C1` at a concrete two-message conversation. -/
theorem claim_C1_witness :
    0 < exMeThem.length ∧
    ((next_opposite_times exMeThem 1).1.getD 0 none = none ↔
      ∀ j, 0 < j → j < exMeThem.length →
        dirOf (exMeThem.getD j defaultMsg) = !dirOf (exMeThem.getD 0 defaultMsg) →
        (exMeThem.getD j defaultMsg).date_raw = none) :=
  ⟨by decide, claim_C1 exMeThem 1 0 (by decide)⟩

/-- C1 as stated is false on the code: in `exC1` the next-opposite pair of
message 0 is null although a message of the opposite direction occurs at the
later index 1 (that message's raw timestamp is null, so the scan never tracks
it). -/
theorem cex_C1 :
    ¬ ((next_opposite_times exC1 1).1.getD 0 none = none ↔
        ¬ ∃ j, 0 < j ∧ j < exC1.length ∧
            dirOf (exC1.getD j defaultMsg) = !dirOf (exC1.getD 0 defaultMsg)) := by
  intro h
  have h1 : (next_opposite_times exC1 1).1.getD 0 none = none := by decide
  exact h.mp h1 ⟨1, by decide⟩

/-- C3: in a conversation ordered non-decreasing by raw send timestamp, for
every message `i` whose next-opposite pair is non-null, the assigned raw
timestamp belongs to a subsequent message of the opposite party that is
nearest in time (its timestamp is a lower bound of all later opposite-party
timestamps), and the reported direction is the opposite of message `i`'s
direction (`0` = from them when `i` is from me, `1` = from me otherwise). -/
theorem claim_C3 (msgs : List Message) (divisor : Int)
    (hsort : msgs.Pairwise dateLE) (i : Nat) (hi : i < msgs.length) (t : Int)
    (ht : (next_opposite_times msgs divisor).1.getD i none = some t) :
    (∃ j, i < j ∧ j < msgs.length ∧
        dirOf (msgs.getD j defaultMsg) = !dirOf (msgs.getD i defaultMsg) ∧
        (msgs.getD j defaultMsg).date_raw = some t) ∧
    (∀ j, i < j → j < msgs.length →
        dirOf (msgs.getD j defaultMsg) = !dirOf (msgs.getD i defaultMsg) →
        ∀ u, (msgs.getD j defaultMsg).date_raw = some u → t ≤ u) ∧
    (next_opposite_times msgs divisor).2.getD i none =
      some (if dirOf (msgs.getD i defaultMsg) then 0 else 1) := by
  have htimes : (next_opposite_times msgs divisor).1 = (nextOppositeScan msgs).times := rfl
  rw [htimes] at ht
  have hfd : firstDirDate (!dirOf (msgs.getD i defaultMsg)) (msgs.drop (i + 1)) = some t := by
    rw [← scan_times_getD msgs i hi]; exact ht
  refine ⟨?_, ?_, ?_⟩
  · obtain ⟨j, hj, h1, h2⟩ := firstDirDate_eq_some _ _ _ hfd
    have hlen := List.length_drop (i + 1) msgs
    refine ⟨i + 1 + j, by omega, by omega, ?_, ?_⟩
    · rw [← getD_drop]; exact h1
    · rw [← getD_drop]; exact h2
  · have hdrop : (msgs.drop (i + 1)).Pairwise dateLE :=
      hsort.sublist (List.drop_sublist (i + 1) msgs)
    have hmin := firstDirDate_min _ _ hdrop t hfd
    exact (forall_mem_drop_iff msgs i _).mp hmin
  · have htypes : (next_opposite_times msgs divisor).2 = (nextOppositeScan msgs).types := rfl
    rw [htypes, scan_types_getD msgs i hi, ht]
    simp

/-- Witness for `claim_C3` at a concrete two-message conversation. -/
theorem claim_C3_witness :
    exMeThem.Pairwise dateLE ∧ 0 < exMeThem.length ∧
    (next_opposite_times exMeThem 1).1.getD 0 none = some 10 ∧
    ((∃ j, 0 < j ∧ j < exMeThem.length ∧
        dirOf (exMeThem.getD j defaultMsg) = !dirOf (exMeThem.getD 0 defaultMsg) ∧
        (exMeThem.getD j defaultMsg).date_raw = some 10) ∧
     (∀ j, 0 < j → j < exMeThem.length →
        dirOf (exMeThem.getD j defaultMsg) = !dirOf (exMeThem.getD 0 defaultMsg) →
        ∀ u, (exMeThem.getD j defaultMsg).date_raw = some u → 10 ≤ u) ∧
     (next_opposite_times exMeThem 1).2.getD 0 none =
       some (if dirOf (exMeThem.getD 0 defaultMsg) then 0 else 1)) :=
  ⟨by decide, by decide, by decide,
   claim_C3 exMeThem 1 (by decide) 0 (by decide) 10 (by decide)⟩

/-! ### Claim C7: timestamp-scale detection -/

/-- Specification-side restatement of the scale policy, following the spec's
wording (first match wins): value absent/zero gives seconds, then the three
magnitude thresholds in order, otherwise seconds. -/
def detectDateScaleSpec (v : Option Int) : Int × String :=
  if v = none ∨ v = some 0 then (1, "seconds")
  else
    match v with
    | none => (1, "seconds")
    | some x =>
      if x > 100000000000000000 then (1000000000, "nanoseconds")
      else if x > 100000000000000 then (1000000, "microseconds")
      else if x > 100000000000 then (1000, "milliseconds")
      else (1, "seconds")

/-- C7: for every nullable maximum raw timestamp, `detect_date_scale` returns
a value following the first-match-wins magnitude rules of the spec; in
particular a maximum of 700000000000000000 yields nanoseconds. -/
theorem claim_C7 :
    (∀ v : Option Int, detect_date_scale v = detectDateScaleSpec v) ∧
    detect_date_scale (some 700000000000000000) = (1000000000, "nanoseconds") := by
  constructor
  · intro v
    match v with
    | none => rfl
    | some x =>
      by_cases h : x = 0
      · subst h; rfl
      · simp [detect_date_scale, detectDateScaleSpec, h]
  · rfl

/-! ### Claim C4: response-time summarization -/

/-- The p90 index as the spec words it: `round(0.9 × (n−1))` clamped to
`[0, n−1]`. -/
def p90IndexSpec (n : Nat) : Nat :=
  min (n - 1) (roundHalfEven ((9 * ((n : ℚ) - 1)) / 10)).toNat

theorem roundHalfEven_intCast (n : ℤ) : roundHalfEven (n : ℚ) = n := by
  simp [roundHalfEven]

theorem roundHalfEven_le_floor_add_one (q : ℚ) : roundHalfEven q ≤ ⌊q⌋ + 1 := by
  simp only [roundHalfEven]
  split_ifs <;> omega

theorem floor_le_roundHalfEven (q : ℚ) : ⌊q⌋ ≤ roundHalfEven q := by
  simp only [roundHalfEven]
  split_ifs <;> omega

theorem p90Index_le (n : Nat) (h : 1 ≤ n) : p90Index n ≤ n - 1 := by
  have hb : roundHalfEven ((9 * ((n : ℚ) - 1)) / 10) ≤ (n : ℤ) - 1 := by
    rcases Nat.lt_or_ge n 2 with h2 | h2
    · have hn : n = 1 := by omega
      subst hn
      norm_num [roundHalfEven]
    · have hq : (9 * ((n : ℚ) - 1)) / 10 < ((n : ℤ) - 1 : ℤ) := by
        push_cast
        have : (1 : ℚ) ≤ (n : ℚ) - 1 := by
          have : (2 : ℚ) ≤ (n : ℚ) := by exact_mod_cast h2
          linarith
        linarith
      have hf : ⌊(9 * ((n : ℚ) - 1)) / 10⌋ < (n : ℤ) - 1 := Int.floor_lt.mpr hq
      have := roundHalfEven_le_floor_add_one ((9 * ((n : ℚ) - 1)) / 10)
      omega
  unfold p90Index
  omega

theorem p90Index_eq_spec (n : Nat) (h : 1 ≤ n) : p90Index n = p90IndexSpec n := by
  have h1 := p90Index_le n h
  unfold p90Index p90IndexSpec at *
  omega

theorem round2_of_den (x : ℚ) (h : (100 * x).den = 1) : round2 x = x := by
  have hx : ((100 * x).num : ℚ) = 100 * x := by
    conv_rhs => rw [← Rat.num_div_den (100 * x)]
    rw [h]
    simp
  unfold round2
  rw [mul_comm, ← hx, roundHalfEven_intCast, hx]
  field_simp

theorem sortAsc_singleton (x : ℚ) : sortAsc [x] = [x] := by
  simp [sortAsc]

theorem summarize_single (x : ℚ) (h : (100 * x).den = 1) :
    summarize_response_times [x] = ⟨1, some x, some x, some x⟩ := by
  have hp : p90Index 1 = 0 := by with_unfolding_all decide
  simp only [summarize_response_times, sortAsc_singleton]
  norm_num [listMean, listMedian, sortAsc_singleton, hp, round2_of_den x h]

/-- C4 (amended): `summarize_response_times([])` yields
`{0, null, null, null}`; for every single value `x` representable with two
decimal places, `summarize_response_times([x])` yields `{1, x, x, x}`; and for
every non-empty input the avg, median and p90 are rounded to 2 decimal places
with p90 taken by the nearest-rank method at index `round(0.9 × (n−1))`,
clamped to `[0, n−1]`, of the ascending sort; for latencies `[1, ..., 10]`
the p90 index is 8 and the p90 value is 9.0. -/
theorem claim_C4 :
    summarize_response_times [] = ⟨0, none, none, none⟩ ∧
    (∀ x : ℚ, (100 * x).den = 1 →
      summarize_response_times [x] = ⟨1, some x, some x, some x⟩) ∧
    (∀ n : Nat, 1 ≤ n → p90Index n = p90IndexSpec n) ∧
    (∀ l : List ℚ, l ≠ [] → summarize_response_times l =
      ⟨l.length, some (round2 (listMean (sortAsc l))),
       some (round2 (listMedian (sortAsc l))),
       some (round2 ((sortAsc l).getD (p90IndexSpec l.length) 0))⟩) ∧
    p90Index 10 = 8 ∧
    (summarize_response_times [1, 2, 3, 4, 5, 6, 7, 8, 9, 10]).p90_minutes = some 9 := by
  refine ⟨rfl, summarize_single, p90Index_eq_spec, ?_, by with_unfolding_all decide,
    by with_unfolding_all decide⟩
  intro l hl
  have hlen : 1 ≤ l.length := List.length_pos.mpr hl
  have hs : (sortAsc l).length = l.length := by
    simp [sortAsc, List.length_mergeSort]
  simp only [summarize_response_times, if_neg hl, hs, p90Index_eq_spec l.length hlen]

/-- Witness for `claim_C4` at the two-decimal value 3/4. -/
theorem claim_C4_witness :
    (100 * ((3 : ℚ)/4)).den = 1 ∧
    summarize_response_times [(3 : ℚ)/4] =
      ⟨1, some ((3 : ℚ)/4), some ((3 : ℚ)/4), some ((3 : ℚ)/4)⟩ :=
  ⟨by with_unfolding_all decide, claim_C4.2.1 ((3 : ℚ)/4) (by with_unfolding_all decide)⟩

/-- C4 as stated is false on the code for a single value that is not
representable with two decimal places: `1.234` is summarized as `1.23`, not
returned unchanged. -/
theorem cex_C4 :
    summarize_response_times [(617 : ℚ)/500] ≠
      ⟨1, some ((617 : ℚ)/500), some ((617 : ℚ)/500), some ((617 : ℚ)/500)⟩ := by
  with_unfolding_all decide

/-! ### Claims C2 and C10: left-on-read classification -/

/-- The left-on-read rule in the spec's words, amended as C2's correction
requires: eligibility needs a non-null, non-zero read timestamp AND a
non-null raw send timestamp, and the message counts unless a next-opposite
reply exists with delta in `[0, threshold_seconds]`. -/
def leftOnReadSpecAmended (m : Message) (next_raw : Option Int) (divisor : Int)
    (threshold_seconds : ℚ) : Prop :=
  m.date_read_raw ≠ none ∧ m.date_read_raw ≠ some 0 ∧ m.date_raw ≠ none ∧
  ¬ ∃ nr base, next_raw = some nr ∧ m.date_read_raw = some base ∧
      0 ≤ deltaSeconds nr base divisor ∧ deltaSeconds nr base divisor ≤ threshold_seconds

/-- The left-on-read rule exactly as the claim states it, with no requirement
on the send timestamp. -/
def leftOnReadSpecClaimed (m : Message) (next_raw : Option Int) (divisor : Int)
    (threshold_seconds : ℚ) : Prop :=
  m.date_read_raw ≠ none ∧ m.date_read_raw ≠ some 0 ∧
  ¬ ∃ nr base, next_raw = some nr ∧ m.date_read_raw = some base ∧
      0 ≤ deltaSeconds nr base divisor ∧ deltaSeconds nr base divisor ≤ threshold_seconds

theorem leftOnRead_iff (m : Message) (nx : Option Int) (dv : Int) (ts : ℚ) :
    leftOnRead m nx dv ts = true ↔ leftOnReadSpecAmended m nx dv ts := by
  cases hr : m.date_read_raw with
  | none => simp [leftOnRead, leftOnReadSpecAmended, normalizeRead, hr]
  | some b =>
    by_cases hb : b = 0
    · subst hb
      simp [leftOnRead, leftOnReadSpecAmended, normalizeRead, hr]
    · cases hd : m.date_raw with
      | none => simp [leftOnRead, leftOnReadSpecAmended, normalizeRead, hr, hb, hd]
      | some d =>
        cases hn : nx with
        | none =>
          simp only [leftOnRead, leftOnReadSpecAmended, normalizeRead, repliedInTime,
            hr, hb, hd, if_neg hb]
          simp [hb]
        | some nr =>
          simp only [leftOnRead, leftOnReadSpecAmended, normalizeRead, repliedInTime,
            hr, hb, hd, if_neg hb]
          simp [hb, and_assoc]
          refine ⟨fun h h0 => ?_, fun h => ?_⟩
          · rcases h with h | h
            · exact absurd h0 (not_le.mpr h)
            · exact h
          · rcases le_or_lt 0 (deltaSeconds nr b dv) with h0 | h0
            · exact Or.inr (h h0)
            · exact Or.inl h0

/-- Helper: the `they_left_you` and `you_left_them` fields of the report are
the sums over encounter-ordered conversations of the per-conversation
left-on-read filters. -/
theorem report_left_on_read (msgs : List Message) (dv : Int) (th : ℚ) (t : Nat) :
    (build_report msgs dv th t).summary.left_on_read.they_left_you =
      ((chatKeys msgs).map (fun cid =>
        ((pairedWithNext (chatGroup msgs cid) dv).filter
          (fun p => p.1.is_from_me == 1 && leftOnRead p.1 p.2 dv (th * 3600))).length)).sum ∧
    (build_report msgs dv th t).summary.left_on_read.you_left_them =
      ((chatKeys msgs).map (fun cid =>
        ((pairedWithNext (chatGroup msgs cid) dv).filter
          (fun p => !(p.1.is_from_me == 1) && leftOnRead p.1 p.2 dv (th * 3600))).length)).sum := by
  constructor <;>
    simp [build_report, chatThemLeft, chatYouLeft, List.map_map, Function.comp_def]

/-- C2 (amended): a message is counted as left on read (attributed to the
opposite party: `they_left_you` when from me, `you_left_them` otherwise)
exactly when its read timestamp is non-null and non-zero, its raw send
timestamp is non-null, and no next-opposite reply exists with delta between 0
and `threshold_hours × 3600` seconds; a null `date_read_raw` is never
flagged, absence of a subsequent opposite-party reply is always left on read,
and a negative delta counts as left on read. -/
theorem claim_C2 :
    (∀ m nx dv ts, leftOnRead m nx dv ts = true ↔ leftOnReadSpecAmended m nx dv ts) ∧
    (∀ msgs dv th t,
      (build_report msgs dv th t).summary.left_on_read.they_left_you =
        ((chatKeys msgs).map (fun cid =>
          ((pairedWithNext (chatGroup msgs cid) dv).filter
            (fun p => p.1.is_from_me == 1 && leftOnRead p.1 p.2 dv (th * 3600))).length)).sum ∧
      (build_report msgs dv th t).summary.left_on_read.you_left_them =
        ((chatKeys msgs).map (fun cid =>
          ((pairedWithNext (chatGroup msgs cid) dv).filter
            (fun p => !(p.1.is_from_me == 1) && leftOnRead p.1 p.2 dv (th * 3600))).length)).sum) ∧
    (∀ m nx dv ts, m.date_read_raw = none → leftOnRead m nx dv ts = false) ∧
    (∀ m b dv ts, m.date_read_raw = some b → b ≠ 0 → m.date_raw ≠ none →
      leftOnRead m none dv ts = true) ∧
    (∀ m b nr dv ts, m.date_read_raw = some b → b ≠ 0 → m.date_raw ≠ none →
      deltaSeconds nr b dv < 0 → leftOnRead m (some nr) dv ts = true) := by
  refine ⟨leftOnRead_iff, report_left_on_read, ?_, ?_, ?_⟩
  · intro m nx dv ts h
    cases hnr : normalizeRead m.date_read_raw with
    | none => simp [leftOnRead, hnr]
    | some b => simp [normalizeRead, h] at hnr
  · intro m b dv ts hr hb hd
    obtain ⟨d, hd'⟩ := Option.ne_none_iff_exists'.mp hd
    simp [leftOnRead, normalizeRead, repliedInTime, hr, hb, hd']
  · intro m b nr dv ts hr hb hd hneg
    obtain ⟨d, hd'⟩ := Option.ne_none_iff_exists'.mp hd
    simp [leftOnRead, normalizeRead, repliedInTime, hr, hb, hd']
    exact Or.inl hneg

/-- Witness for `claim_C2`: a message with a null read timestamp is never
flagged. -/
theorem claim_C2_witness :
    defaultMsg.date_read_raw = none ∧ leftOnRead defaultMsg none 1 86400 = false :=
  ⟨rfl, claim_C2.2.2.1 defaultMsg none 1 86400 rfl⟩

/-- Message from the other party, read (raw read timestamp 5) but with a null
raw send timestamp. -/
def exNullSend : Message := ⟨3, 1, "c", none, none, none, some 5, 0⟩

/-- C2 as stated is false on the code: `exNullSend` satisfies the claim's
eligibility (read non-null and non-zero) and has no subsequent opposite
reply, so the claim counts it under `you_left_them`; the code counts nothing
because the raw send timestamp is null. -/
theorem cex_C2 :
    leftOnReadSpecClaimed exNullSend none 1 86400 ∧
    (exNullSend.is_from_me == 1) = false ∧
    (build_report [exNullSend] 1 24 20).summary.left_on_read.you_left_them = 0 := by
  refine ⟨⟨by decide, by decide, ?_⟩, by decide, by with_unfolding_all decide⟩
  rintro ⟨nr, base, h, -⟩
  cases h

/-- C10: a message whose read timestamp is non-null and non-zero but whose
raw send timestamp is null is never counted as left on read in either
direction: the code's eligibility requires a non-null send timestamp in
addition to the non-null read timestamp. -/
theorem claim_C10 :
    (∀ m nx dv ts, m.date_raw = none → leftOnRead m nx dv ts = false) ∧
    (∀ m nx dv ts, leftOnRead m nx dv ts = true →
      m.date_raw ≠ none ∧ m.date_read_raw ≠ none ∧ m.date_read_raw ≠ some 0) := by
  constructor
  · intro m nx dv ts h
    cases hnr : normalizeRead m.date_read_raw <;> simp [leftOnRead, hnr, h]
  · intro m nx dv ts h
    have hs := (leftOnRead_iff m nx dv ts).mp h
    exact ⟨hs.2.2.1, hs.1, hs.2.1⟩

/-- Witness for `claim_C10` at the concrete read-but-null-send message. -/
theorem claim_C10_witness :
    exNullSend.date_raw = none ∧ leftOnRead exNullSend none 1 86400 = false :=
  ⟨rfl, claim_C10.1 exNullSend none 1 86400 rfl⟩

/-! ### Claim C6: reply-latency samples -/

theorem replySample_eq_some (m : Message) (nx : Option Int) (dv : Int) (q : ℚ) :
    replySample m nx dv = some q ↔
      ∃ nr dr, nx = some nr ∧ m.date_raw = some dr ∧
        0 ≤ deltaSeconds nr dr dv ∧ q = deltaSeconds nr dr dv / 60 := by
  cases hn : nx with
  | none => simp [replySample]
  | some nr =>
    cases hd : m.date_raw with
    | none => simp [replySample, hd]
    | some dr =>
      simp only [replySample, hd]
      split_ifs with h0
      · simp [hd, h0, eq_comm]
      · simp [hd, h0]

theorem replySample_of_date_none (m : Message) (nx : Option Int) (dv : Int)
    (h : m.date_raw = none) : replySample m nx dv = none := by
  cases nx <;> simp [replySample, h]

theorem mem_pairedWithNext (msgs : List Message) (dv : Int) (p : Message × Option Int) :
    p ∈ pairedWithNext msgs dv ↔
      ∃ i, i < msgs.length ∧
        p = (msgs.getD i defaultMsg, (next_opposite_times msgs dv).1.getD i none) := by
  have hlen : (next_opposite_times msgs dv).1.length = msgs.length := scan_times_length msgs
  unfold pairedWithNext
  constructor
  · intro hp
    obtain ⟨i, hi, he⟩ := List.mem_iff_getElem.mp hp
    have hzl : (msgs.zip (next_opposite_times msgs dv).1).length = msgs.length := by
      simp [List.length_zip, hlen]
    rw [hzl] at hi
    refine ⟨i, hi, ?_⟩
    rw [← he, List.getElem_zip]
    rw [List.getD_eq_getElem _ _ hi, List.getD_eq_getElem _ _ (by omega : i < (next_opposite_times msgs dv).1.length)]
  · rintro ⟨i, hi, rfl⟩
    have h1 : i < (next_opposite_times msgs dv).1.length := by omega
    have hzl : i < (msgs.zip (next_opposite_times msgs dv).1).length := by
      simp [List.length_zip, hlen]; omega
    have hmem := List.getElem_mem hzl
    rw [List.getElem_zip] at hmem
    rw [List.getD_eq_getElem _ _ hi, List.getD_eq_getElem _ _ h1]
    exact hmem

theorem themFun_eq_some (p : Message × Option Int) (dv : Int) (q : ℚ) :
    (if p.1.is_from_me = 1 then replySample p.1 p.2 dv else none) = some q ↔
      p.1.is_from_me = 1 ∧ replySample p.1 p.2 dv = some q := by
  split_ifs with h <;> simp [h]

theorem youFun_eq_some (p : Message × Option Int) (dv : Int) (q : ℚ) :
    (if p.1.is_from_me = 1 then none else replySample p.1 p.2 dv) = some q ↔
      ¬ p.1.is_from_me = 1 ∧ replySample p.1 p.2 dv = some q := by
  split_ifs with h <;> simp [h]

theorem chatThemReply_mem (msgs : List Message) (dv : Int) (q : ℚ) :
    q ∈ chatThemReply msgs dv ↔
      ∃ i, i < msgs.length ∧ dirOf (msgs.getD i defaultMsg) = true ∧
        ∃ nr dr, (next_opposite_times msgs dv).1.getD i none = some nr ∧
          (msgs.getD i defaultMsg).date_raw = some dr ∧
          0 ≤ deltaSeconds nr dr dv ∧ q = deltaSeconds nr dr dv / 60 := by
  unfold chatThemReply
  rw [List.mem_filterMap]
  constructor
  · rintro ⟨p, hp, hf⟩
    rw [mem_pairedWithNext] at hp
    obtain ⟨i, hi, rfl⟩ := hp
    obtain ⟨hm, hr⟩ := (themFun_eq_some _ dv q).mp hf
    rw [replySample_eq_some] at hr
    obtain ⟨nr, dr, h1, h2, h3, h4⟩ := hr
    refine ⟨i, hi, ?_, nr, dr, h1, h2, h3, h4⟩
    simp only [dirOf, beq_iff_eq]
    exact hm
  · rintro ⟨i, hi, hdir, nr, dr, h1, h2, h3, h4⟩
    refine ⟨(msgs.getD i defaultMsg, (next_opposite_times msgs dv).1.getD i none),
      (mem_pairedWithNext msgs dv _).mpr ⟨i, hi, rfl⟩, ?_⟩
    refine (themFun_eq_some _ dv q).mpr ⟨?_, ?_⟩
    · simpa [dirOf, beq_iff_eq] using hdir
    · rw [replySample_eq_some]
      exact ⟨nr, dr, h1, h2, h3, h4⟩

theorem chatYouReply_mem (msgs : List Message) (dv : Int) (q : ℚ) :
    q ∈ chatYouReply msgs dv ↔
      ∃ i, i < msgs.length ∧ dirOf (msgs.getD i defaultMsg) = false ∧
        ∃ nr dr, (next_opposite_times msgs dv).1.getD i none = some nr ∧
          (msgs.getD i defaultMsg).date_raw = some dr ∧
          0 ≤ deltaSeconds nr dr dv ∧ q = deltaSeconds nr dr dv / 60 := by
  unfold chatYouReply
  rw [List.mem_filterMap]
  constructor
  · rintro ⟨p, hp, hf⟩
    rw [mem_pairedWithNext] at hp
    obtain ⟨i, hi, rfl⟩ := hp
    obtain ⟨hm, hr⟩ := (youFun_eq_some _ dv q).mp hf
    rw [replySample_eq_some] at hr
    obtain ⟨nr, dr, h1, h2, h3, h4⟩ := hr
    refine ⟨i, hi, ?_, nr, dr, h1, h2, h3, h4⟩
    simp only [dirOf, beq_eq_false_iff_ne]
    exact hm
  · rintro ⟨i, hi, hdir, nr, dr, h1, h2, h3, h4⟩
    refine ⟨(msgs.getD i defaultMsg, (next_opposite_times msgs dv).1.getD i none),
      (mem_pairedWithNext msgs dv _).mpr ⟨i, hi, rfl⟩, ?_⟩
    refine (youFun_eq_some _ dv q).mpr ⟨?_, ?_⟩
    · simpa [dirOf, beq_eq_false_iff_ne] using hdir
    · rw [replySample_eq_some]
      exact ⟨nr, dr, h1, h2, h3, h4⟩

/-- Helper: the global response-time summaries are the summaries of the
pooled per-conversation sample lists. -/
theorem report_response_times (msgs : List Message) (dv : Int) (th : ℚ) (t : Nat) :
    (build_report msgs dv th t).summary.response_times.they_reply =
      summarize_response_times
        (((chatKeys msgs).map (fun cid => chatThemReply (chatGroup msgs cid) dv)).flatten) ∧
    (build_report msgs dv th t).summary.response_times.you_reply =
      summarize_response_times
        (((chatKeys msgs).map (fun cid => chatYouReply (chatGroup msgs cid) dv)).flatten) := by
  constructor <;> simp [build_report, List.map_map, Function.comp_def]

/-- C6: a message contributes a reply-latency sample exactly when a
subsequent opposite-party timestamp exists, its own raw send timestamp is
non-null, and the delta `(next − date)/divisor` is non-negative; the sample,
in minutes, goes to `they_reply` when the message is from me and to
`you_reply` otherwise; and the global summaries are computed over the pooled
per-conversation samples. -/
theorem claim_C6 :
    (∀ msgs dv q, q ∈ chatThemReply msgs dv ↔
      ∃ i, i < msgs.length ∧ dirOf (msgs.getD i defaultMsg) = true ∧
        ∃ nr dr, (next_opposite_times msgs dv).1.getD i none = some nr ∧
          (msgs.getD i defaultMsg).date_raw = some dr ∧
          0 ≤ deltaSeconds nr dr dv ∧ q = deltaSeconds nr dr dv / 60) ∧
    (∀ msgs dv q, q ∈ chatYouReply msgs dv ↔
      ∃ i, i < msgs.length ∧ dirOf (msgs.getD i defaultMsg) = false ∧
        ∃ nr dr, (next_opposite_times msgs dv).1.getD i none = some nr ∧
          (msgs.getD i defaultMsg).date_raw = some dr ∧
          0 ≤ deltaSeconds nr dr dv ∧ q = deltaSeconds nr dr dv / 60) ∧
    (∀ msgs dv th t,
      (build_report msgs dv th t).summary.response_times.they_reply =
        summarize_response_times
          (((chatKeys msgs).map (fun cid => chatThemReply (chatGroup msgs cid) dv)).flatten) ∧
      (build_report msgs dv th t).summary.response_times.you_reply =
        summarize_response_times
          (((chatKeys msgs).map (fun cid => chatYouReply (chatGroup msgs cid) dv)).flatten)) :=
  ⟨chatThemReply_mem, chatYouReply_mem, report_response_times⟩

/-! ### Claim C8: message counting -/

theorem chatSent_add_chatReceived (l : List Message) :
    chatSent l + chatReceived l = l.length := by
  unfold chatSent chatReceived
  induction l with
  | nil => rfl
  | cons m rest ih =>
    cases h : (m.is_from_me == 1) <;> simp [List.filter_cons, h] <;> omega

theorem mem_chatKeys (c : Int) (l : List Message) :
    c ∈ chatKeys l ↔ ∃ m ∈ l, m.chat_id = c := by
  induction l with
  | nil => simp [chatKeys]
  | cons m rest ih =>
    simp only [chatKeys, List.mem_cons, List.mem_filter, bne_iff_ne, ih]
    constructor
    · rintro (rfl | ⟨⟨m', hm', rfl⟩, -⟩)
      · exact ⟨m, Or.inl rfl, rfl⟩
      · exact ⟨m', Or.inr hm', rfl⟩
    · rintro ⟨m', (rfl | hm'), rfl⟩
      · exact Or.inl rfl
      · by_cases h : m'.chat_id = m.chat_id
        · exact Or.inl h
        · exact Or.inr ⟨⟨m', hm', rfl⟩, h⟩

theorem chatKeys_nodup (l : List Message) : (chatKeys l).Nodup := by
  induction l with
  | nil => simp [chatKeys]
  | cons m rest ih =>
    rw [chatKeys, List.nodup_cons]
    refine ⟨?_, ih.filter _⟩
    intro hmem
    have h2 := (List.mem_filter.mp hmem).2
    simp [bne_iff_ne] at h2

theorem chatGroup_cons_length (m : Message) (rest : List Message) (cid : Int) :
    (chatGroup (m :: rest) cid).length =
      (if m.chat_id == cid then 1 else 0) + (chatGroup rest cid).length := by
  simp only [chatGroup, List.filter_cons]
  cases h : (m.chat_id == cid) <;> simp <;> omega

theorem chatGroup_eq_nil_of_not_mem (rest : List Message) (c : Int)
    (h : c ∉ chatKeys rest) : chatGroup rest c = [] := by
  rw [chatGroup, List.filter_eq_nil_iff]
  intro m hm hbeq
  exact h ((mem_chatKeys c rest).mpr ⟨m, hm, by simpa [beq_iff_eq] using hbeq⟩)

theorem keys_filter_of_not_mem (rest : List Message) (a : Int)
    (h : a ∉ chatKeys rest) :
    (chatKeys rest).filter (fun c => c != a) = chatKeys rest := by
  rw [List.filter_eq_self]
  intro c hc
  exact bne_iff_ne.mpr (fun he => h (he ▸ hc))

theorem keys_perm_of_mem (rest : List Message) (a : Int) (h : a ∈ chatKeys rest) :
    List.Perm (chatKeys rest) (a :: (chatKeys rest).filter (fun c => c != a)) := by
  have h1 := List.perm_cons_erase h
  rwa [(chatKeys_nodup rest).erase_eq_filter a] at h1

/-- The conversation groups partition the message list: the group lengths sum
to the total number of messages. -/
theorem sum_group_lengths (l : List Message) :
    ((chatKeys l).map (fun cid => (chatGroup l cid).length)).sum = l.length := by
  induction l with
  | nil => simp [chatKeys]
  | cons m rest ih =>
    rw [chatKeys, List.map_cons, List.sum_cons]
    have hhead : (chatGroup (m :: rest) m.chat_id).length =
        1 + (chatGroup rest m.chat_id).length := by
      rw [chatGroup_cons_length]
      simp
    have htail : ((chatKeys rest).filter (fun c => c != m.chat_id)).map
          (fun cid => (chatGroup (m :: rest) cid).length) =
        ((chatKeys rest).filter (fun c => c != m.chat_id)).map
          (fun cid => (chatGroup rest cid).length) := by
      apply List.map_congr_left
      intro cid hc
      have hne : cid ≠ m.chat_id := bne_iff_ne.mp (List.mem_filter.mp hc).2
      rw [chatGroup_cons_length]
      have hb : (m.chat_id == cid) = false :=
        beq_eq_false_iff_ne.mpr (fun he => hne he.symm)
      rw [hb]
      simp
    rw [hhead, htail]
    by_cases hmem : m.chat_id ∈ chatKeys rest
    · have hperm := (keys_perm_of_mem rest m.chat_id hmem).map
        (fun cid => (chatGroup rest cid).length)
      have hsum := hperm.sum_eq
      rw [List.map_cons, List.sum_cons] at hsum
      beta_reduce at hsum
      simp only [List.length_cons]
      omega
    · rw [keys_filter_of_not_mem rest m.chat_id hmem,
        chatGroup_eq_nil_of_not_mem rest m.chat_id hmem]
      simp only [List.length_nil, List.length_cons]
      omega

theorem sum_map_add {α : Type} (l : List α) (f g : α → Nat) :
    (l.map (fun a => f a + g a)).sum = (l.map f).sum + (l.map g).sum := by
  induction l with
  | nil => rfl
  | cons a rest ih =>
    simp only [List.map_cons, List.sum_cons, ih]
    omega

/-- C8: for every conversation, sent + received equals the length of that
conversation's message list (every message is counted exactly once, as sent
when `is_from_me == 1` and as received otherwise), and the global summary
total equals the total number of input messages. -/
theorem claim_C8 :
    (∀ msgs : List Message, chatSent msgs + chatReceived msgs = msgs.length) ∧
    (∀ msgs dv th t, ∀ c ∈ (build_report msgs dv th t).chats,
      c.totals.total = c.totals.sent + c.totals.received ∧
      c.totals.sent + c.totals.received = (chatGroup msgs c.chat_id).length) ∧
    (∀ msgs dv th t,
      (build_report msgs dv th t).summary.totals.total = msgs.length) := by
  refine ⟨chatSent_add_chatReceived, ?_, ?_⟩
  · intro msgs dv th t c hc
    have hc0 : c ∈ ((((chatKeys msgs).map (fun cid => (cid, chatGroup msgs cid))).map
        (fun g => chatEntry g.1 g.2 dv (th * 3600))).mergeSort chatLE).take t := hc
    have hc1 := List.mem_mergeSort.mp (List.mem_of_mem_take hc0)
    rw [List.map_map] at hc1
    obtain ⟨cid, hcid, rfl⟩ := List.mem_map.mp hc1
    refine ⟨rfl, ?_⟩
    simpa [chatEntry, Function.comp] using chatSent_add_chatReceived (chatGroup msgs cid)
  · intro msgs dv th t
    show (((chatKeys msgs).map (fun cid => (cid, chatGroup msgs cid))).map
          (fun g => chatSent g.2)).sum +
        (((chatKeys msgs).map (fun cid => (cid, chatGroup msgs cid))).map
          (fun g => chatReceived g.2)).sum = msgs.length
    rw [List.map_map, List.map_map, ← sum_map_add]
    have hmc : ((chatKeys msgs).map (fun cid =>
          ((fun g => chatSent g.2) ∘ fun cid => (cid, chatGroup msgs cid)) cid +
          ((fun g => chatReceived g.2) ∘ fun cid => (cid, chatGroup msgs cid)) cid)) =
        ((chatKeys msgs).map (fun cid => (chatGroup msgs cid).length)) := by
      apply List.map_congr_left
      intro cid _
      exact chatSent_add_chatReceived (chatGroup msgs cid)
    rw [hmc]
    exact sum_group_lengths msgs

/-- The chats-list entry built for the one-message conversation
`[defaultMsg]`. -/
def exEntryDefault : ChatEntry :=
  ⟨0, "", none, "", ⟨0, 1, 1⟩, ⟨0, 0⟩,
   ⟨⟨0, none, none, none⟩, ⟨0, none, none, none⟩⟩⟩

/-- Witness for `claim_C8` at the one-message report. -/
theorem claim_C8_witness :
    exEntryDefault ∈ (build_report [defaultMsg] 1 24 20).chats ∧
    (exEntryDefault.totals.total =
        exEntryDefault.totals.sent + exEntryDefault.totals.received ∧
      exEntryDefault.totals.sent + exEntryDefault.totals.received =
        (chatGroup [defaultMsg] exEntryDefault.chat_id).length) :=
  ⟨by with_unfolding_all decide,
   claim_C8.2.1 [defaultMsg] 1 24 20 exEntryDefault (by with_unfolding_all decide)⟩

/-! ### Claim C5: ranking of the chats list -/

theorem chatLE_trans (a b c : ChatEntry) :
    chatLE a b → chatLE b c → chatLE a c := by
  simp only [chatLE, decide_eq_true_eq]
  omega

theorem chatLE_total (a b : ChatEntry) : chatLE a b || chatLE b a := by
  simp only [chatLE]
  rcases Nat.le_total b.totals.total a.totals.total with h | h <;> simp [h]

theorem pairwise_of_forall_mem {α : Type} (R : α → α → Prop) :
    ∀ l : List α, (∀ a ∈ l, ∀ b ∈ l, R a b) → l.Pairwise R
  | [], _ => List.Pairwise.nil
  | a :: rest, h =>
    List.Pairwise.cons
      (fun b hb => h a (List.mem_cons_self a rest) b (List.mem_cons_of_mem a hb))
      (pairwise_of_forall_mem R rest (fun x hx y hy =>
        h x (List.mem_cons_of_mem a hx) y (List.mem_cons_of_mem a hy)))

/-- Sorting with `chatLE` is stable in the filter sense: the entries sharing
any fixed total keep exactly their original order. -/
theorem mergeSort_filter_total (l : List ChatEntry) (k : Nat) :
    (l.mergeSort chatLE).filter (fun c => c.totals.total == k) =
      l.filter (fun c => c.totals.total == k) := by
  set p : ChatEntry → Bool := fun c => c.totals.total == k with hp
  have hpair : (l.filter p).Pairwise (fun a b => chatLE a b = true) := by
    have hall : ∀ a ∈ l.filter p, ∀ b ∈ l.filter p, chatLE a b = true := by
      intro a ha b hb
      have hak : a.totals.total = k := by
        have := (List.mem_filter.mp ha).2
        simpa [hp, beq_iff_eq] using this
      have hbk : b.totals.total = k := by
        have := (List.mem_filter.mp hb).2
        simpa [hp, beq_iff_eq] using this
      simp [chatLE, hak, hbk]
    exact pairwise_of_forall_mem _ (l.filter p) hall
  have h1 : (l.filter p).Sublist (l.mergeSort chatLE) :=
    List.sublist_mergeSort chatLE_trans chatLE_total hpair (List.filter_sublist l)
  have h2 : (l.filter p).Sublist ((l.mergeSort chatLE).filter p) := by
    have h3 := h1.filter p
    rwa [List.filter_filter, (by
      funext a
      cases p a <;> rfl : (fun a => p a && p a) = p)] at h3
  have hlen : ((l.mergeSort chatLE).filter p).length = (l.filter p).length := by
    rw [← List.countP_eq_length_filter, ← List.countP_eq_length_filter]
    exact (List.mergeSort_perm l chatLE).countP_eq p
  exact (h2.eq_of_length hlen.symm).symm

/-- The per-conversation entries in first-encounter order, before sorting and
truncation. -/
def fullChats (msgs : List Message) (dv : Int) (ts : ℚ) : List ChatEntry :=
  (chatKeys msgs).map (fun cid => chatEntry cid (chatGroup msgs cid) dv ts)

theorem report_chats_eq (msgs : List Message) (dv : Int) (th : ℚ) (t : Nat) :
    (build_report msgs dv th t).chats =
      ((fullChats msgs dv (th * 3600)).mergeSort chatLE).take t := by
  show ((((chatKeys msgs).map (fun cid => (cid, chatGroup msgs cid))).map
      (fun g => chatEntry g.1 g.2 dv (th * 3600))).mergeSort chatLE).take t = _
  rw [List.map_map]
  rfl

/-- Example input with two conversations: chat 1 holds 10 messages, chat 2
holds 3. -/
def exTwoChats : List Message :=
  ((List.range 10).map (fun k =>
    ⟨Int.ofNat k, 1, "a", none, none, some (100 * (Int.ofNat k)), none, 1⟩)) ++
  ((List.range 3).map (fun k =>
    ⟨Int.ofNat (20 + k), 2, "b", none, none, some (100 * (Int.ofNat k)), none, 0⟩))

/-- C5: the report's chats list is sorted non-increasing by `totals.total`,
ties preserve the conversations' first-encounter order (stable: for each
total value the retained entries form a prefix of the encounter-ordered
entries with that total), and the list is truncated to the configured top-N;
with two conversations of 10 and 3 messages and `top = 1`, the chats list
contains exactly the 10-message conversation. -/
theorem claim_C5 :
    (∀ msgs dv th t, (build_report msgs dv th t).chats.Pairwise
      (fun a b => b.totals.total ≤ a.totals.total)) ∧
    (∀ msgs dv th t k, ∃ suffix,
      ((build_report msgs dv th t).chats.filter (fun c => c.totals.total == k)) ++ suffix =
        (fullChats msgs dv (th * 3600)).filter (fun c => c.totals.total == k)) ∧
    (∀ msgs dv th t,
      (build_report msgs dv th t).chats.length = min t (chatKeys msgs).length) ∧
    (build_report exTwoChats 1 24 1).chats.map (fun c => (c.chat_id, c.totals.total)) =
      [(1, 10)] := by
  refine ⟨?_, ?_, ?_, by with_unfolding_all decide⟩
  · intro msgs dv th t
    rw [report_chats_eq]
    have hs := List.sorted_mergeSort chatLE_trans chatLE_total
      (fullChats msgs dv (th * 3600))
    have ht : (((fullChats msgs dv (th * 3600)).mergeSort chatLE).take t).Pairwise
        (fun a b => chatLE a b = true) :=
      hs.sublist (List.take_sublist t _)
    exact ht.imp (by
      intro a b h
      simpa [chatLE] using h)
  · intro msgs dv th t k
    refine ⟨(((fullChats msgs dv (th * 3600)).mergeSort chatLE).drop t).filter
      (fun c => c.totals.total == k), ?_⟩
    rw [report_chats_eq, ← List.filter_append, List.take_append_drop,
      mergeSort_filter_total]
  · intro msgs dv th t
    rw [report_chats_eq, List.length_take, List.length_mergeSort]
    simp [fullChats]

/-! ### Claim C9: totality, empty input, null-timestamp propagation -/

theorem leftOnRead_of_date_none (m : Message) (nx : Option Int) (dv : Int) (ts : ℚ)
    (h : m.date_raw = none) : leftOnRead m nx dv ts = false := by
  cases hnr : normalizeRead m.date_read_raw <;> simp [leftOnRead, hnr, h]

theorem chatThemReply_of_all_none (msgs : List Message) (dv : Int)
    (h : ∀ m ∈ msgs, m.date_raw = none) : chatThemReply msgs dv = [] := by
  unfold chatThemReply
  rw [List.filterMap_eq_nil_iff]
  intro p hp
  have hm : p.1 ∈ msgs := (List.of_mem_zip hp).1
  have hnone := replySample_of_date_none p.1 p.2 dv (h p.1 hm)
  by_cases hfm : p.1.is_from_me = 1 <;> simp [hfm, hnone]

theorem chatYouReply_of_all_none (msgs : List Message) (dv : Int)
    (h : ∀ m ∈ msgs, m.date_raw = none) : chatYouReply msgs dv = [] := by
  unfold chatYouReply
  rw [List.filterMap_eq_nil_iff]
  intro p hp
  have hm : p.1 ∈ msgs := (List.of_mem_zip hp).1
  have hnone := replySample_of_date_none p.1 p.2 dv (h p.1 hm)
  by_cases hfm : p.1.is_from_me = 1 <;> simp [hfm, hnone]

theorem chatThemLeft_of_all_none (msgs : List Message) (dv : Int) (ts : ℚ)
    (h : ∀ m ∈ msgs, m.date_raw = none) : chatThemLeft msgs dv ts = 0 := by
  unfold chatThemLeft
  rw [List.length_eq_zero, List.filter_eq_nil_iff]
  intro p hp
  have hm : p.1 ∈ msgs := (List.of_mem_zip hp).1
  simp [leftOnRead_of_date_none p.1 p.2 dv ts (h p.1 hm)]

theorem chatYouLeft_of_all_none (msgs : List Message) (dv : Int) (ts : ℚ)
    (h : ∀ m ∈ msgs, m.date_raw = none) : chatYouLeft msgs dv ts = 0 := by
  unfold chatYouLeft
  rw [List.length_eq_zero, List.filter_eq_nil_iff]
  intro p hp
  have hm : p.1 ∈ msgs := (List.of_mem_zip hp).1
  simp [leftOnRead_of_date_none p.1 p.2 dv ts (h p.1 hm)]

/-- `build_report` on zero messages yields the fully-defined zero report. -/
theorem build_report_nil (dv : Int) (th : ℚ) (t : Nat) :
    build_report [] dv th t =
      ⟨⟨⟨0, 0, 0⟩, ⟨0, 0⟩, ⟨⟨0, none, none, none⟩, ⟨0, none, none, none⟩⟩⟩, []⟩ := by
  simp [build_report, chatKeys, summarize_response_times]

/-- C9: `build_report` is a total function with no exceptional control flow:
null timestamps propagate as absent signals (an input whose send timestamps
are all null produces empty latency summaries and zero left-on-read counts),
and the empty input yields the valid fully-defined zero report rather than an
error. -/
theorem claim_C9 :
    (∀ dv th t, build_report [] dv th t =
      ⟨⟨⟨0, 0, 0⟩, ⟨0, 0⟩, ⟨⟨0, none, none, none⟩, ⟨0, none, none, none⟩⟩⟩, []⟩) ∧
    (∀ msgs dv th t, (∀ m ∈ msgs, m.date_raw = none) →
      (build_report msgs dv th t).summary.response_times =
        ⟨⟨0, none, none, none⟩, ⟨0, none, none, none⟩⟩ ∧
      (build_report msgs dv th t).summary.left_on_read = ⟨0, 0⟩) := by
  refine ⟨build_report_nil, ?_⟩
  intro msgs dv th t h
  have hgm : ∀ cid, ∀ m ∈ chatGroup msgs cid, m.date_raw = none := by
    intro cid m hm
    exact h m (List.mem_filter.mp hm).1
  constructor
  · obtain ⟨hthem, hyou⟩ := report_response_times msgs dv th t
    have hthem0 : ((chatKeys msgs).map
        (fun cid => chatThemReply (chatGroup msgs cid) dv)).flatten = [] := by
      rw [List.flatten_eq_nil_iff]
      intro x hx
      obtain ⟨cid, hcid, rfl⟩ := List.mem_map.mp hx
      exact chatThemReply_of_all_none _ dv (hgm cid)
    have hyou0 : ((chatKeys msgs).map
        (fun cid => chatYouReply (chatGroup msgs cid) dv)).flatten = [] := by
      rw [List.flatten_eq_nil_iff]
      intro x hx
      obtain ⟨cid, hcid, rfl⟩ := List.mem_map.mp hx
      exact chatYouReply_of_all_none _ dv (hgm cid)
    have heq : (build_report msgs dv th t).summary.response_times =
        ⟨(build_report msgs dv th t).summary.response_times.you_reply,
         (build_report msgs dv th t).summary.response_times.they_reply⟩ := rfl
    rw [heq, hyou, hthem, hyou0, hthem0]
    simp [summarize_response_times]
  · obtain ⟨hthey, hyoul⟩ := report_left_on_read msgs dv th t
    have h1 : ((chatKeys msgs).map (fun cid =>
        ((pairedWithNext (chatGroup msgs cid) dv).filter
          (fun p => p.1.is_from_me == 1 && leftOnRead p.1 p.2 dv (th * 3600))).length)).sum
        = 0 := by
      apply List.sum_eq_zero
      intro x hx
      obtain ⟨cid, hcid, rfl⟩ := List.mem_map.mp hx
      exact chatThemLeft_of_all_none _ dv _ (hgm cid)
    have h2 : ((chatKeys msgs).map (fun cid =>
        ((pairedWithNext (chatGroup msgs cid) dv).filter
          (fun p => !(p.1.is_from_me == 1) && leftOnRead p.1 p.2 dv (th * 3600))).length)).sum
        = 0 := by
      apply List.sum_eq_zero
      intro x hx
      obtain ⟨cid, hcid, rfl⟩ := List.mem_map.mp hx
      exact chatYouLeft_of_all_none _ dv _ (hgm cid)
    have heq : (build_report msgs dv th t).summary.left_on_read =
        ⟨(build_report msgs dv th t).summary.left_on_read.you_left_them,
         (build_report msgs dv th t).summary.left_on_read.they_left_you⟩ := rfl
    rw [heq, hthey, hyoul, h1, h2]

/-- Witness for `claim_C9` at a concrete all-null-send-timestamp input. -/
theorem claim_C9_witness :
    (∀ m ∈ [exNullSend], m.date_raw = none) ∧
    ((build_report [exNullSend] 1 24 20).summary.response_times =
        ⟨⟨0, none, none, none⟩, ⟨0, none, none, none⟩⟩ ∧
      (build_report [exNullSend] 1 24 20).summary.left_on_read = ⟨0, 0⟩) :=
  ⟨by decide, claim_C9.2 [exNullSend] 1 24 20 (by decide)⟩

end IMessageStats
